import Mathlib

/-!
Verification of the nofus mount-state monitor (src/src/main.rs).

The Rust program is embedded shallowly: effects of the operating system
(path canonicalization, the /proc/mounts table, inotify watch installation,
inotify event reads, command execution) are inputs to otherwise pure Lean
functions, and the functions mirror the Rust control flow line by line.
-/

namespace Nofus

/-- Result of `PathBuf::canonicalize`: `none` models an `Err` (missing path,
permission denied, broken symlink), `some cp` a successful resolution. -/
abbrev Canonicalizer := String → Option String

/-- The probing environment of one call to `is_mount_point`:
`canonicalize` resolves paths, `mountTable` is the outcome of
`MountIter::new()` followed by `filter_map(Result::ok)` — `none` when the
mount table cannot be opened, otherwise the list of entry destinations. -/
structure ProbeEnv where
  canonicalize : Canonicalizer
  mountTable : Option (List String)

/-- Embedding of `is_mount_point` (main.rs lines 61-76): canonicalize the
path (failure gives `false`), open the mount table (failure gives `false`),
then test whether some entry destination canonicalizes to the same path. -/
def is_mount_point (env : ProbeEnv) (path : String) : Bool :=
  match env.canonicalize path with
  | none => false
  | some canonical_path =>
    match env.mountTable with
    | none => false
    | some mounts =>
      (mounts.filterMap env.canonicalize).any (fun p => p == canonical_path)

/-- Observable effect of one dispatcher call: either the command string was
run through the shell, or a dry-run notice carrying its literal text was
reported. -/
inductive DispatchAction where
  | executed (cmd : String)
  | dryRunNotice (cmd : String)
  deriving Repr, DecidableEq

/-- Embedding of `all_mounted` (main.rs lines 33-44): run the command unless
`dry_run`, in which case only report what would have run. -/
def all_mounted (cmd : String) (dry_run : Bool) : DispatchAction :=
  if !dry_run then DispatchAction.executed cmd
  else DispatchAction.dryRunNotice cmd

/-- Embedding of `any_unmounted` (main.rs lines 47-58): identical dispatch
logic to `all_mounted`, with the other log line. -/
def any_unmounted (cmd : String) (dry_run : Bool) : DispatchAction :=
  if !dry_run then DispatchAction.executed cmd
  else DispatchAction.dryRunNotice cmd

/-- The watch registry, `HashMap<String, WatchDescriptor>` in the source:
an association list from monitored path to its inotify watch descriptor
(descriptors are modelled as naturals, compared only for equality). -/
abbrev Watches := List (String × Nat)

/-- `HashMap::contains_key`. -/
def containsKey (w : Watches) (p : String) : Bool :=
  w.any (fun pr => pr.1 == p)

/-- `HashMap::insert`: the new binding replaces any previous binding of the
same path. -/
def insertW (w : Watches) (p : String) (h : Nat) : Watches :=
  (p, h) :: w.filter (fun pr => pr.1 ≠ p)

/-- `HashMap::remove`. -/
def removeW (w : Watches) (p : String) : Watches :=
  w.filter (fun pr => pr.1 ≠ p)

/-- One inotify event as the loop consumes it: the watch descriptor it
refers to and whether its mask contains `EventMask::IGNORED`. -/
structure Event where
  wd : Nat
  ignored : Bool
  deriving Repr, DecidableEq

/-- Embedding of the event-draining pass for a single event (main.rs lines
192-204): on an `IGNORED` event, look up the registry entry whose
descriptor matches and remove it; otherwise do nothing. -/
def processEvent (w : Watches) (e : Event) : Watches :=
  if e.ignored then
    match (w.find? (fun pr => pr.2 == e.wd)).map (fun pr => pr.1) with
    | some path => removeW w path
    | none => w
  else w

/-- The `for event in events` loop of main.rs lines 192-204. -/
def processEvents (w : Watches) (es : List Event) : Watches :=
  es.foldl processEvent w

/-- Per-cycle OS environment of the reconciliation loop: `probe` is the
outcome of `is_mount_point` for each path this cycle, `install` the outcome
of `inotify.watches().add(path, WatchMask::ALL_EVENTS)` (`none` on `Err`). -/
structure CycleEnv where
  probe : String → Bool
  install : String → Option Nat

/-- Accumulator of the per-path probe-and-update pass: the registry, the
`new_state` flag, and an instrumentation log of the paths for which a watch
installation was attempted. -/
structure PassResult where
  watches : Watches
  newState : Bool
  attempted : List String
  deriving Repr, DecidableEq

/-- Embedding of one iteration of the `for path in &config.mount_points`
loop of main.rs lines 210-224: probe the path; if mounted and unwatched,
attempt to install a watch (recording success in the registry); if
unmounted, clear `new_state`. -/
def updatePathsStep (env : CycleEnv) (r : PassResult) (path : String) : PassResult :=
  let is_mounted := env.probe path
  let (w, att) :=
    if is_mounted && !(containsKey r.watches path) then
      (match env.install path with
        | some h => insertW r.watches path h
        | none => r.watches,
       r.attempted ++ [path])
    else (r.watches, r.attempted)
  { watches := w
    newState := if !is_mounted then false else r.newState
    attempted := att }

/-- The whole probe-and-update pass of main.rs lines 206-224, starting from
`new_state = true`. -/
def updatePaths (env : CycleEnv) (w : Watches) (paths : List String) : PassResult :=
  paths.foldl (updatePathsStep env) ⟨w, true, []⟩

/-- Outcome of `inotify.read_events` as the loop's `match` sees it
(main.rs lines 186-190): a successful read of pending events, the
`ErrorKind::WouldBlock` error, or any other error. -/
inductive ReadResult where
  | ok (events : List Event)
  | wouldBlock
  | err
  deriving Repr, DecidableEq

/-- The state the loop carries across iterations: the watch registry and
`current_state` (`true` = AllMounted, `false` = NotAllMounted). -/
structure LoopState where
  watches : Watches
  current : Bool
  deriving Repr, DecidableEq

/-- The relevant configuration record (main.rs lines 13-19). -/
structure Config where
  mount_points : List String
  delay_seconds : Nat
  all_mounted_cmd : String
  any_unmounted_cmd : String

/-- How one iteration of the `loop` ends: `skipped` is the
`Err(WouldBlock) => continue` branch, which jumps straight back to
`read_events` without running the rest of the body or the sleep;
`completed` is the normal path through the body, emitted dispatcher
actions included, ending in `thread::sleep`; `fatal` is the
`panic!` branch on any other read error. -/
inductive CycleOutcome where
  | skipped (st : LoopState)
  | completed (st : LoopState) (actions : List DispatchAction)
  | fatal
  deriving Repr, DecidableEq

/-- Embedding of one iteration of the observation `loop` (main.rs lines
180-247). -/
def cycleStep (cfg : Config) (dry_run : Bool) (env : CycleEnv)
    (read : ReadResult) (st : LoopState) : CycleOutcome :=
  match read with
  | ReadResult.wouldBlock => CycleOutcome.skipped st
  | ReadResult.err => CycleOutcome.fatal
  | ReadResult.ok events =>
    let w1 := processEvents st.watches events
    let r := updatePaths env w1 cfg.mount_points
    let state_changed := r.newState != st.current
    let current := if state_changed then r.newState else st.current
    let actions :=
      if state_changed then
        [if current then all_mounted cfg.all_mounted_cmd dry_run
         else any_unmounted cfg.any_unmounted_cmd dry_run]
      else []
    CycleOutcome.completed ⟨r.watches, current⟩ actions

/-- Whether the iteration reaches the pacing `thread::sleep` at main.rs
line 246: only the `completed` path does; `continue` and `panic!` do not. -/
def sleeps : CycleOutcome → Bool
  | CycleOutcome.completed _ _ => true
  | _ => false

/-- Dispatcher actions emitted by the iteration. -/
def actionsOf : CycleOutcome → List DispatchAction
  | CycleOutcome.completed _ actions => actions
  | _ => []

/-- Embedding of one iteration of the startup `for path in
&config.mount_points` pass (main.rs lines 146-158): probe; if mounted,
attempt the watch installation (no registry entry is present yet, the code
does not check), keeping the descriptor on success; if unmounted, clear
`current_state`. -/
def startupStep (env : CycleEnv) (r : PassResult) (path : String) : PassResult :=
  if env.probe path then
    { watches :=
        match env.install path with
        | some h => insertW r.watches path h
        | none => r.watches
      newState := r.newState
      attempted := r.attempted ++ [path] }
  else { r with newState := false }

/-- The whole startup pass, from an empty registry and
`current_state = true`. -/
def startup (env : CycleEnv) (paths : List String) : PassResult :=
  paths.foldl (startupStep env) ⟨[], true, []⟩

/-- The single initial dispatch (main.rs lines 166-171). -/
def startupAction (cfg : Config) (dry_run : Bool) (initialState : Bool) : DispatchAction :=
  if initialState then all_mounted cfg.all_mounted_cmd dry_run
  else any_unmounted cfg.any_unmounted_cmd dry_run

/-- The dispatcher actions of the whole startup phase, as a list: the code
dispatches exactly once here. -/
def startupActions (cfg : Config) (dry_run : Bool) (env : CycleEnv) : List DispatchAction :=
  [startupAction cfg dry_run (startup env cfg.mount_points).newState]

/-- Run the observation loop over a finite schedule of per-iteration OS
environments and read outcomes, collecting the dispatcher actions.  A
`fatal` iteration terminates the process, so nothing later runs. -/
def runLoop (cfg : Config) (dry_run : Bool) (st : LoopState) :
    List (ReadResult × CycleEnv) → LoopState × List DispatchAction
  | [] => (st, [])
  | (read, env) :: rest =>
    match cycleStep cfg dry_run env read st with
    | CycleOutcome.skipped st' => runLoop cfg dry_run st' rest
    | CycleOutcome.completed st' acts =>
      let t := runLoop cfg dry_run st' rest
      (t.1, acts ++ t.2)
    | CycleOutcome.fatal => (st, [])

/-! Helper lemmas about the passes. -/

theorem updatePathsStep_newState (env : CycleEnv) (r : PassResult) (p : String) :
    (updatePathsStep env r p).newState = (r.newState && env.probe p) := by
  simp only [updatePathsStep]
  cases env.probe p <;> simp

theorem updatePaths_foldl_newState (env : CycleEnv) (ps : List String) (init : PassResult) :
    (ps.foldl (updatePathsStep env) init).newState = (init.newState && ps.all env.probe) := by
  induction ps generalizing init with
  | nil => simp
  | cons q qs ih =>
    simp only [List.foldl_cons, List.all_cons, ih, updatePathsStep_newState]
    rw [Bool.and_assoc]

theorem updatePaths_newState (env : CycleEnv) (w : Watches) (ps : List String) :
    (updatePaths env w ps).newState = ps.all env.probe := by
  simp [updatePaths, updatePaths_foldl_newState]

/-! Claim theorems. -/

/-- C2: the recomputed aggregate state of a reconciliation cycle is
AllMounted (`newState = true`) iff every monitored path's probe returned
true; a single `false` probe yields NotAllMounted. -/
theorem aggregate_allMounted_iff (env : CycleEnv) (w : Watches) (ps : List String) :
    ((updatePaths env w ps).newState = true ↔ ∀ p ∈ ps, env.probe p = true)
    ∧ ((∃ p ∈ ps, env.probe p = false) → (updatePaths env w ps).newState = false) := by
  constructor
  · rw [updatePaths_newState]
    exact List.all_eq_true
  · rintro ⟨p, hp, hfalse⟩
    rw [updatePaths_newState]
    simp only [List.all_eq_false]
    exact ⟨p, hp, by simp [hfalse]⟩

/-- Witness for C2 at a concrete input: with one unmounted path the
aggregate is NotAllMounted. -/
theorem aggregate_allMounted_iff_witness :
    (updatePaths ⟨fun _ => false, fun _ => none⟩ [] (["/mnt/a"] : List String)).newState = false :=
  (aggregate_allMounted_iff ⟨fun _ => false, fun _ => none⟩ [] ["/mnt/a"]).2
    ⟨"/mnt/a", by simp, rfl⟩

/-- C4: `is_mount_point` returns true iff canonicalizing the path succeeds,
the mount table can be read, and some entry destination canonicalizes to
the same canonical path; canonicalization failure or an unreadable mount
table each force `false`. -/
theorem is_mount_point_spec (env : ProbeEnv) (path : String) :
    (is_mount_point env path = true ↔
      ∃ cp, env.canonicalize path = some cp ∧
        ∃ ds, env.mountTable = some ds ∧ ∃ d ∈ ds, env.canonicalize d = some cp)
    ∧ (env.canonicalize path = none → is_mount_point env path = false)
    ∧ (env.mountTable = none → is_mount_point env path = false) := by
  refine ⟨?_, ?_, ?_⟩
  · unfold is_mount_point
    cases hc : env.canonicalize path with
    | none => simp [hc]
    | some cp =>
      cases hm : env.mountTable with
      | none => simp [hm]
      | some ds =>
        simp only [List.any_eq_true, List.mem_filterMap, beq_iff_eq]
        constructor
        · rintro ⟨p, ⟨d, hd, hcd⟩, rfl⟩
          exact ⟨p, rfl, ds, rfl, d, hd, hcd⟩
        · rintro ⟨cp', hcp', ds', hds', d, hd, hcd⟩
          obtain rfl : cp = cp' := Option.some.inj hcp'
          obtain rfl : ds = ds' := Option.some.inj hds'
          exact ⟨cp, ⟨d, hd, hcd⟩, rfl⟩
  · intro hc
    unfold is_mount_point
    rw [hc]
  · intro hm
    unfold is_mount_point
    cases hc : env.canonicalize path with
    | none => rfl
    | some cp => rw [hm]

/-- Witness for C4 at a concrete input: a path that fails canonicalization
probes as not mounted even though the table lists it. -/
theorem is_mount_point_spec_witness :
    is_mount_point ⟨fun _ => none, some ["/mnt/a"]⟩ "/mnt/a" = false :=
  (is_mount_point_spec ⟨fun _ => none, some ["/mnt/a"]⟩ "/mnt/a").2.1 rfl

/-- C8: a notification-read failure other than would-block makes the
iteration fatal (the `panic!` branch); the loop does not continue. -/
theorem read_error_is_fatal (cfg : Config) (dry_run : Bool) (env : CycleEnv)
    (st : LoopState) :
    cycleStep cfg dry_run env ReadResult.err st = CycleOutcome.fatal := rfl

/-- C1 evaluated at its failing input: a would-block notification read makes
the iteration take the `continue` branch, which re-enters the read with the
state untouched, no re-poll, no dispatch, and no pacing sleep. -/
theorem wouldBlock_skips_pacing (cfg : Config) (dry_run : Bool) (env : CycleEnv)
    (st : LoopState) :
    cycleStep cfg dry_run env ReadResult.wouldBlock st = CycleOutcome.skipped st
    ∧ sleeps (cycleStep cfg dry_run env ReadResult.wouldBlock st) = false
    ∧ actionsOf (cycleStep cfg dry_run env ReadResult.wouldBlock st) = [] :=
  ⟨rfl, rfl, rfl⟩

/-! Concrete inputs used by witnesses and counterexamples. -/

/-- A configuration with one monitored path. -/
def cfgOne : Config := ⟨["/mnt/a"], 5, "am", "um"⟩

/-- A configuration with no monitored paths. -/
def cfgEmpty : Config := ⟨[], 5, "am", "um"⟩

/-- A cycle environment in which every probe reports unmounted. -/
def envAllDown : CycleEnv := ⟨fun _ => false, fun _ => none⟩

/-- A cycle environment in which every probe reports mounted but every
watch installation fails. -/
def envUpNoInstall : CycleEnv := ⟨fun _ => true, fun _ => none⟩

/-- A cycle environment in which every probe reports mounted and every
watch installation succeeds with descriptor 7. -/
def envUpInstall : CycleEnv := ⟨fun _ => true, fun _ => some 7⟩

/-! Dispatch behaviour of a completed iteration. -/

theorem cycleStep_ok_actions (cfg : Config) (dry_run : Bool) (env : CycleEnv)
    (events : List Event) (st : LoopState) :
    actionsOf (cycleStep cfg dry_run env (ReadResult.ok events) st) =
      (if (updatePaths env (processEvents st.watches events) cfg.mount_points).newState
            != st.current then
        [if (updatePaths env (processEvents st.watches events) cfg.mount_points).newState
          then all_mounted cfg.all_mounted_cmd dry_run
          else any_unmounted cfg.any_unmounted_cmd dry_run]
      else []) := by
  simp only [cycleStep, actionsOf]
  cases hn : (updatePaths env (processEvents st.watches events) cfg.mount_points).newState <;>
    cases hc : st.current <;> simp [hn, hc]

/-- C3: in a completed reconciliation cycle, the dispatcher is invoked iff
the recomputed aggregate state differs from the carried state, and then
exactly once with the command associated with the new state; an unchanged
state dispatches nothing. -/
theorem dispatch_iff_state_changed (cfg : Config) (dry_run : Bool) (env : CycleEnv)
    (events : List Event) (st : LoopState) :
    ((updatePaths env (processEvents st.watches events) cfg.mount_points).newState
        = st.current →
      actionsOf (cycleStep cfg dry_run env (ReadResult.ok events) st) = [])
    ∧ ((updatePaths env (processEvents st.watches events) cfg.mount_points).newState
        ≠ st.current →
      actionsOf (cycleStep cfg dry_run env (ReadResult.ok events) st) =
        [if (updatePaths env (processEvents st.watches events) cfg.mount_points).newState
          then all_mounted cfg.all_mounted_cmd dry_run
          else any_unmounted cfg.any_unmounted_cmd dry_run]) := by
  constructor
  · intro h
    rw [cycleStep_ok_actions]
    simp [h]
  · intro h
    rw [cycleStep_ok_actions]
    simp [bne_iff_ne, h]

/-- Witness for C3 at a concrete input: with the single path unmounted and
the carried state AllMounted, the cycle dispatches the any-unmounted
command exactly once. -/
theorem dispatch_iff_state_changed_witness :
    actionsOf (cycleStep cfgOne false envAllDown (ReadResult.ok []) ⟨[], true⟩) =
      [any_unmounted cfgOne.any_unmounted_cmd false] := by
  have h := (dispatch_iff_state_changed cfgOne false envAllDown [] ⟨[], true⟩).2 (by decide)
  simpa using h

/-! Every dispatcher action emitted anywhere comes from `all_mounted` or
`any_unmounted` applied to the configured commands. -/

theorem cycleStep_actions_mem (cfg : Config) (dry_run : Bool) (env : CycleEnv)
    (read : ReadResult) (st : LoopState) (a : DispatchAction)
    (ha : a ∈ actionsOf (cycleStep cfg dry_run env read st)) :
    a = all_mounted cfg.all_mounted_cmd dry_run
      ∨ a = any_unmounted cfg.any_unmounted_cmd dry_run := by
  cases read with
  | wouldBlock => simp [cycleStep, actionsOf] at ha
  | err => simp [cycleStep, actionsOf] at ha
  | ok events =>
    rw [cycleStep_ok_actions] at ha
    split at ha
    · rw [List.mem_singleton] at ha
      split at ha
      · exact Or.inl ha
      · exact Or.inr ha
    · simp at ha

theorem runLoop_actions_mem (cfg : Config) (dry_run : Bool)
    (sched : List (ReadResult × CycleEnv)) (st : LoopState) (a : DispatchAction)
    (ha : a ∈ (runLoop cfg dry_run st sched).2) :
    a = all_mounted cfg.all_mounted_cmd dry_run
      ∨ a = any_unmounted cfg.any_unmounted_cmd dry_run := by
  induction sched generalizing st with
  | nil => simp [runLoop] at ha
  | cons pr rest ih =>
    obtain ⟨read, env⟩ := pr
    rw [runLoop] at ha
    cases hcs : cycleStep cfg dry_run env read st with
    | skipped st' =>
      rw [hcs] at ha
      exact ih st' ha
    | completed st' acts =>
      rw [hcs] at ha
      simp only [List.mem_append] at ha
      rcases ha with h1 | h2
      · have hmem : a ∈ actionsOf (cycleStep cfg dry_run env read st) := by
          rw [hcs]; exact h1
        exact cycleStep_actions_mem cfg dry_run env read st a hmem
      · exact ih st' h2
    | fatal =>
      rw [hcs] at ha
      simp at ha

/-- C5: with `dry_run` set, every dispatcher action of the whole run —
the startup dispatch and every loop iteration — is a dry-run notice
carrying the literal command text; no command is ever executed. -/
theorem dry_run_no_execution (cfg : Config) (env0 : CycleEnv) (st : LoopState)
    (sched : List (ReadResult × CycleEnv)) (a : DispatchAction)
    (ha : a ∈ startupActions cfg true env0 ++ (runLoop cfg true st sched).2) :
    a = DispatchAction.dryRunNotice cfg.all_mounted_cmd
      ∨ a = DispatchAction.dryRunNotice cfg.any_unmounted_cmd := by
  rcases List.mem_append.mp ha with h1 | h2
  · simp only [startupActions, List.mem_singleton] at h1
    subst h1
    unfold startupAction
    split
    · exact Or.inl rfl
    · exact Or.inr rfl
  · rcases runLoop_actions_mem cfg true sched st a h2 with h | h
    · exact Or.inl (by rw [h]; rfl)
    · exact Or.inr (by rw [h]; rfl)

/-- Witness for C5 at a concrete input: the startup notice of a dry run
with every path mounted is one of the two dry-run notices. -/
theorem dry_run_no_execution_witness :
    DispatchAction.dryRunNotice "am" = DispatchAction.dryRunNotice cfgOne.all_mounted_cmd
      ∨ DispatchAction.dryRunNotice "am" = DispatchAction.dryRunNotice cfgOne.any_unmounted_cmd :=
  dry_run_no_execution cfgOne envUpInstall ⟨[], true⟩ []
    (DispatchAction.dryRunNotice "am") (by decide)

/-! Installation attempts during the probe-and-update pass. -/

theorem updatePathsStep_attempted_not_mem (env : CycleEnv) (p : String)
    (hp : env.probe p = false) (init : PassResult) (q : String)
    (hinit : p ∉ init.attempted) :
    p ∉ (updatePathsStep env init q).attempted := by
  simp only [updatePathsStep]
  by_cases hq : q = p
  · subst hq
    rw [hp]
    simpa using hinit
  · cases hpq : env.probe q
    · simpa using hinit
    · cases hck : containsKey init.watches q
      · simp only [hpq, hck, Bool.not_false, Bool.and_self, if_pos]
        simp only [List.mem_append, List.mem_singleton]
        rintro (h | h)
        · exact hinit h
        · exact hq h.symm
      · simpa [hpq, hck] using hinit

theorem updatePaths_attempted_not_mem (env : CycleEnv) (p : String)
    (hp : env.probe p = false) (ps : List String) (init : PassResult)
    (hinit : p ∉ init.attempted) :
    p ∉ (ps.foldl (updatePathsStep env) init).attempted := by
  induction ps generalizing init with
  | nil => simpa using hinit
  | cons q qs ih =>
    exact ih (updatePathsStep env init q) (updatePathsStep_attempted_not_mem env p hp init q hinit)

/-- C6: the probe-and-update pass attempts a watch installation for a path
iff the probe reported it mounted and no registry entry currently exists
for it; a failed installation leaves the registry unchanged; and a path
probing unmounted is never the subject of an installation attempt anywhere
in the pass. -/
theorem ensure_watch_iff (env : CycleEnv) (w : Watches) (ns : Bool) (att : List String)
    (p : String) (ps : List String) (w0 : Watches) :
    ((updatePathsStep env ⟨w, ns, att⟩ p).attempted = att ++ [p] ↔
      env.probe p = true ∧ containsKey w p = false)
    ∧ (¬(env.probe p = true ∧ containsKey w p = false) →
        (updatePathsStep env ⟨w, ns, att⟩ p).attempted = att)
    ∧ (env.install p = none → (updatePathsStep env ⟨w, ns, att⟩ p).watches = w)
    ∧ (env.probe p = false → p ∉ (updatePaths env w0 ps).attempted) := by
  refine ⟨?_, ?_, ?_, ?_⟩
  · cases hpq : env.probe p <;> cases hck : containsKey w p <;>
      simp [updatePathsStep, hpq, hck]
  · intro h
    cases hpq : env.probe p <;> cases hck : containsKey w p <;>
      simp_all [updatePathsStep]
  · intro hin
    cases hpq : env.probe p <;> cases hck : containsKey w p <;>
      simp [updatePathsStep, hpq, hck, hin]
  · intro hp
    exact updatePaths_attempted_not_mem env p hp ps ⟨w0, true, []⟩ (by simp)

/-- Witness for C6 at a concrete input: a mounted, unwatched path is
attempted, and its failed installation leaves the registry empty. -/
theorem ensure_watch_iff_witness :
    (updatePathsStep envUpNoInstall ⟨[], true, []⟩ "/mnt/a").attempted = [] ++ ["/mnt/a"]
    ∧ (updatePathsStep envUpNoInstall ⟨[], true, []⟩ "/mnt/a").watches = [] :=
  ⟨(ensure_watch_iff envUpNoInstall [] true [] "/mnt/a" [] []).1.mpr ⟨rfl, rfl⟩,
   (ensure_watch_iff envUpNoInstall [] true [] "/mnt/a" [] []).2.2.1 rfl⟩

/-! The probe-and-update pass only ever adds registry entries. -/

theorem containsKey_eq_false_iff (w : Watches) (p : String) :
    containsKey w p = false ↔ ∀ pr ∈ w, pr.1 ≠ p := by
  simp [containsKey, List.any_eq_false, beq_iff_eq]

theorem mem_insertW_of_mem (w : Watches) (p : String) (h : Nat)
    (pr : String × Nat) (hpr : pr ∈ w) (hne : pr.1 ≠ p) : pr ∈ insertW w p h := by
  simp only [insertW, List.mem_cons]
  exact Or.inr (List.mem_filter.mpr ⟨hpr, by simpa using hne⟩)

theorem updatePathsStep_watches_mono (env : CycleEnv) (r : PassResult) (q : String)
    (pr : String × Nat) (hpr : pr ∈ r.watches) :
    pr ∈ (updatePathsStep env r q).watches := by
  simp only [updatePathsStep]
  cases hpq : env.probe q
  · simpa using hpr
  · cases hck : containsKey r.watches q
    · cases hin : env.install q
      · simp only [hpq, hck, Bool.not_false, Bool.and_self, if_pos, hin]
        exact hpr
      · simp only [hpq, hck, Bool.not_false, Bool.and_self, if_pos, hin]
        exact mem_insertW_of_mem _ _ _ pr hpr
          ((containsKey_eq_false_iff r.watches q).mp hck pr hpr)
    · simpa [hpq, hck] using hpr

theorem updatePaths_foldl_watches_mono (env : CycleEnv) (ps : List String)
    (init : PassResult) (pr : String × Nat) (hpr : pr ∈ init.watches) :
    pr ∈ (ps.foldl (updatePathsStep env) init).watches := by
  induction ps generalizing init with
  | nil => simpa using hpr
  | cons q qs ih =>
    exact ih (updatePathsStep env init q) (updatePathsStep_watches_mono env init q pr hpr)

/-- C7: a registry entry is removed only by an IGNORED notification whose
watch descriptor matches it — a non-IGNORED event or an unmatched
descriptor leaves the registry untouched, and a match removes exactly the
matched path's entry — while the probe-and-update pass preserves every
existing entry (it only adds). -/
theorem watch_removal_frame (w : Watches) (e : Event) (env : CycleEnv) (ps : List String) :
    (e.ignored = false → processEvent w e = w)
    ∧ (List.find? (fun pr => pr.2 == e.wd) w = none → processEvent w e = w)
    ∧ (∀ p0 h0, List.find? (fun pr => pr.2 == e.wd) w = some (p0, h0) →
        e.ignored = true → processEvent w e = removeW w p0)
    ∧ (∀ pr ∈ w, pr ∈ (updatePaths env w ps).watches) := by
  refine ⟨?_, ?_, ?_, ?_⟩
  · intro h
    simp [processEvent, h]
  · intro h
    simp [processEvent, h]
  · intro p0 h0 hfind hig
    simp [processEvent, hig, hfind]
  · intro pr hpr
    exact updatePaths_foldl_watches_mono env ps ⟨w, true, []⟩ pr hpr

/-- Witness for C7 at a concrete input: a non-IGNORED event leaves the
registry unchanged, and the pass preserves the existing entry. -/
theorem watch_removal_frame_witness :
    processEvent [("/mnt/a", 5)] ⟨5, false⟩ = [("/mnt/a", 5)]
    ∧ ("/mnt/a", 5) ∈ (updatePaths envAllDown [("/mnt/a", 5)] ["/mnt/a"]).watches :=
  ⟨(watch_removal_frame [("/mnt/a", 5)] ⟨5, false⟩ envAllDown ["/mnt/a"]).1 rfl,
   (watch_removal_frame [("/mnt/a", 5)] ⟨5, false⟩ envAllDown ["/mnt/a"]).2.2.2
      ("/mnt/a", 5) (List.mem_singleton.mpr rfl)⟩

/-! Startup pass lemmas. -/

theorem startupStep_newState (env : CycleEnv) (r : PassResult) (p : String) :
    (startupStep env r p).newState = (r.newState && env.probe p) := by
  simp only [startupStep]
  cases env.probe p <;> simp

theorem startup_foldl_newState (env : CycleEnv) (ps : List String) (init : PassResult) :
    (ps.foldl (startupStep env) init).newState = (init.newState && ps.all env.probe) := by
  induction ps generalizing init with
  | nil => simp
  | cons q qs ih =>
    simp only [List.foldl_cons, List.all_cons, ih, startupStep_newState]
    rw [Bool.and_assoc]

theorem startup_foldl_attempted (env : CycleEnv) (ps : List String) (init : PassResult) :
    (ps.foldl (startupStep env) init).attempted =
      init.attempted ++ ps.filter (fun p => env.probe p) := by
  induction ps generalizing init with
  | nil => simp
  | cons q qs ih =>
    simp only [List.foldl_cons, ih]
    cases hq : env.probe q <;> simp [startupStep, hq]

theorem containsKey_insertW_self (w : Watches) (p : String) (h : Nat) :
    containsKey (insertW w p h) p = true := by
  simp [insertW, containsKey]

theorem containsKey_insertW_mono (w : Watches) (q p : String) (h : Nat)
    (hw : containsKey w p = true) : containsKey (insertW w q h) p = true := by
  simp only [containsKey, List.any_eq_true, beq_iff_eq] at hw ⊢
  obtain ⟨pr, hpr, hpr1⟩ := hw
  by_cases hq : pr.1 = q
  · exact ⟨(q, h), List.mem_cons_self _ _, by rw [← hq, hpr1]⟩
  · exact ⟨pr, List.mem_cons.mpr (Or.inr (List.mem_filter.mpr ⟨hpr, by simpa using hq⟩)),
      hpr1⟩

theorem startupStep_contains_mono (env : CycleEnv) (r : PassResult) (q p : String)
    (hw : containsKey r.watches p = true) :
    containsKey (startupStep env r q).watches p = true := by
  simp only [startupStep]
  cases hpq : env.probe q
  · simpa using hw
  · cases hin : env.install q
    · simpa [hin] using hw
    · simpa [hin] using containsKey_insertW_mono r.watches q p _ hw

theorem startup_foldl_contains_mono (env : CycleEnv) (ps : List String)
    (init : PassResult) (p : String) (hw : containsKey init.watches p = true) :
    containsKey ((ps.foldl (startupStep env) init)).watches p = true := by
  induction ps generalizing init with
  | nil => simpa using hw
  | cons q qs ih =>
    exact ih (startupStep env init q) (startupStep_contains_mono env init q p hw)

theorem startup_foldl_contains (env : CycleEnv) (ps : List String) (init : PassResult)
    (p : String) (hp : p ∈ ps) (hprobe : env.probe p = true)
    (hinst : (env.install p).isSome = true) :
    containsKey ((ps.foldl (startupStep env) init)).watches p = true := by
  induction ps generalizing init with
  | nil => cases hp
  | cons q qs ih =>
    rcases List.mem_cons.mp hp with rfl | hmem
    · obtain ⟨d, hd⟩ := Option.isSome_iff_exists.mp hinst
      rw [List.foldl_cons]
      apply startup_foldl_contains_mono
      simp [startupStep, hprobe, hd, insertW, containsKey]
    · rw [List.foldl_cons]
      exact ih (startupStep env init q) hmem

/-- Counterexample to C9 as stated: with the single path mounted but the
watch installation failing, the startup pass seeds no watch for it. -/
theorem startup_seed_counterexample :
    envUpNoInstall.probe "/mnt/a" = true
    ∧ containsKey (startup envUpNoInstall ["/mnt/a"]).watches "/mnt/a" = false :=
  ⟨rfl, by decide⟩

/-- C9 (amended): at startup the initial aggregate state is AllMounted iff
every probe returned true, a watch installation is attempted for exactly
the paths whose probe returned true and an entry is seeded whenever that
installation succeeds, and the dispatcher fires exactly once with the
command matching the initial aggregate state. -/
theorem startup_amended_spec (env : CycleEnv) (ps : List String) (cfg : Config)
    (dry_run : Bool) :
    ((startup env ps).newState = true ↔ ∀ p ∈ ps, env.probe p = true)
    ∧ ((startup env ps).attempted = ps.filter (fun p => env.probe p))
    ∧ (∀ p ∈ ps, env.probe p = true → (env.install p).isSome = true →
        containsKey (startup env ps).watches p = true)
    ∧ (startupActions cfg dry_run env =
        [if (startup env cfg.mount_points).newState
          then all_mounted cfg.all_mounted_cmd dry_run
          else any_unmounted cfg.any_unmounted_cmd dry_run]) := by
  refine ⟨?_, ?_, ?_, ?_⟩
  · rw [startup, startup_foldl_newState]
    simp [List.all_eq_true]
  · rw [startup, startup_foldl_attempted]
    simp
  · intro p hp hprobe hinst
    exact startup_foldl_contains env ps ⟨[], true, []⟩ p hp hprobe hinst
  · rfl

/-- Witness for C9 at a concrete input: with the single path mounted and
installation succeeding, the startup state is AllMounted and the watch is
seeded. -/
theorem startup_amended_spec_witness :
    (startup envUpInstall ["/mnt/a"]).newState = true
    ∧ containsKey (startup envUpInstall ["/mnt/a"]).watches "/mnt/a" = true :=
  ⟨(startup_amended_spec envUpInstall ["/mnt/a"] cfgOne false).1.mpr
      (fun _ _ => rfl),
   (startup_amended_spec envUpInstall ["/mnt/a"] cfgOne false).2.2.1 "/mnt/a"
      (List.mem_singleton.mpr rfl) rfl rfl⟩

/-! Behaviour of the monitor with no configured mount points. -/

theorem runLoop_empty_mounts (cfg : Config) (dry_run : Bool)
    (hmp : cfg.mount_points = []) (sched : List (ReadResult × CycleEnv)) :
    ∀ w : Watches,
      (runLoop cfg dry_run ⟨w, true⟩ sched).2 = []
      ∧ (runLoop cfg dry_run ⟨w, true⟩ sched).1.current = true := by
  induction sched with
  | nil =>
    intro w
    simp [runLoop]
  | cons pr rest ih =>
    intro w
    obtain ⟨read, env⟩ := pr
    cases read with
    | wouldBlock =>
      rw [runLoop]
      exact ih w
    | err =>
      rw [runLoop]
      exact ⟨rfl, rfl⟩
    | ok events =>
      have hstep : cycleStep cfg dry_run env (ReadResult.ok events) ⟨w, true⟩ =
          CycleOutcome.completed ⟨processEvents w events, true⟩ [] := by
        simp [cycleStep, hmp, updatePaths]
      rw [runLoop, hstep]
      rcases ih (processEvents w events) with ⟨h2, h1⟩
      exact ⟨by simpa using h2, h1⟩

/-- C10: with an empty `mount_points` list the initial aggregate state is
AllMounted vacuously, the startup dispatch is exactly one all-mounted
command, every completed cycle recomputes AllMounted, and no dispatch
ever occurs after startup. -/
theorem empty_mounts_all_mounted (cfg : Config) (dry_run : Bool) (env0 : CycleEnv)
    (sched : List (ReadResult × CycleEnv)) (w : Watches)
    (hmp : cfg.mount_points = []) :
    (startup env0 cfg.mount_points).newState = true
    ∧ startupActions cfg dry_run env0 = [all_mounted cfg.all_mounted_cmd dry_run]
    ∧ (∀ (env : CycleEnv) (events : List Event) (st : LoopState),
        (updatePaths env (processEvents st.watches events) cfg.mount_points).newState = true)
    ∧ (runLoop cfg dry_run ⟨w, true⟩ sched).2 = []
    ∧ (runLoop cfg dry_run ⟨w, true⟩ sched).1.current = true := by
  have hstate : (startup env0 cfg.mount_points).newState = true := by
    rw [hmp]; rfl
  refine ⟨hstate, ?_, ?_, ?_, ?_⟩
  · simp [startupActions, startupAction, hstate]
  · intro env events st
    rw [hmp, updatePaths_newState]
    rfl
  · exact (runLoop_empty_mounts cfg dry_run hmp sched w).1
  · exact (runLoop_empty_mounts cfg dry_run hmp sched w).2

/-- Witness for C10 at a concrete input: the empty configuration run over
one would-block iteration and one completed iteration dispatches only the
startup all-mounted command. -/
theorem empty_mounts_all_mounted_witness :
    (startup envAllDown cfgEmpty.mount_points).newState = true
    ∧ startupActions cfgEmpty false envAllDown = [all_mounted cfgEmpty.all_mounted_cmd false]
    ∧ (runLoop cfgEmpty false ⟨[], true⟩
        [(ReadResult.wouldBlock, envAllDown), (ReadResult.ok [], envAllDown)]).2 = [] := by
  have h := empty_mounts_all_mounted cfgEmpty false envAllDown
    [(ReadResult.wouldBlock, envAllDown), (ReadResult.ok [], envAllDown)] [] rfl
  exact ⟨h.1, h.2.1, h.2.2.2.1⟩

end Nofus
